import Mathlib

/-
  Verification of src/lib/FastJson.js (fast-json).

  The scanner is embedded shallowly: input data is a list of UTF-16 code
  units (`List Nat`, as produced by `charCodeAt`), slices are sublists, the
  mutable instance fields of the `FastJson` class become an explicit
  `ScanState`, and the two partial loops (`_parseString`, `_parsePrimitive`,
  and the loops of `_skipBlock` and `write`) are written with an explicit
  fuel argument whose exhaustion, like an out-of-range read in the source,
  yields a non-result (`none` / `Outcome.diverge`).  A thrown JavaScript
  TypeError (property access on `undefined`) is `Outcome.typeError`.

  Listeners are identified by numeric ids; invoking a listener is recorded
  in an event log, and a listener's call to `skip()` is modelled by a
  behaviour function `lskip : Nat → List Nat → Bool` consulted at emission.
-/

namespace FastJson

/-- Character code constants exactly as declared at the top of FastJson.js. -/
def OPEN_BRACE : Nat := 123

def CLOSE_BRACE : Nat := 125

def OPEN_BRACKET : Nat := 91

def CLOSE_BRACKET : Nat := 93

def QUOTE : Nat := 34

def SPACE : Nat := 32

def NEW_LINE : Nat := 10

def CARRIAGE_RETURN : Nat := 13

def TAB : Nat := 9

def COLON : Nat := 58

def COMMA : Nat := 44

def BACKSLASH : Nat := 92

def TYPE_ARRAY : Nat := 1

def TYPE_OBJECT : Nat := 2

/-- ROOT_KEY is the one-character string "/" (code 47). -/
def ROOT_KEY : List Nat := [47]

/-- Modelled from the spec: the Path Trie of src/lib/EventTree.js, which is
not under src/.  Per spec section 4.5 the trie maps segment sequences to
listener lists; a node exists iff it lies on some registered path, and
`register` walks from the root creating missing nodes.  We model the trie
extensionally as the list of registrations in registration order: each entry
is the full node path of the terminal node (the root segment followed by the
registered path's segments, matching the scanner's use of ROOT_KEY as the
entry key of the top-level container) paired with the listener id. -/
abbrev Trie := List (List (List Nat) × Nat)

/-- Modelled from the spec: `register(path, listener)` (EventTree.on) appends
a listener at the node reached from the root via the root segment followed by
the path's segments, creating missing nodes. -/
def register (tr : Trie) (path : List (List Nat)) (id : Nat) : Trie :=
  tr ++ [(ROOT_KEY :: path, id)]

/-- Modelled from the spec: `hasChild(key)` relative to a cursor position: a
child node named `key` exists below the cursor iff `cursor ++ [key]` is a
prefix of some registered path (a node exists purely as a waypoint toward
deeper registered listeners). -/
def hasNodeAt (tr : Trie) (cursor : List (List Nat)) (key : List Nat) : Bool :=
  tr.any (fun r => (cursor ++ [key]).isPrefixOf r.1)

/-- Modelled from the spec: the listener ids stored at the trie node `cursor`,
in registration order. -/
def listenersAt (tr : Trie) (cursor : List (List Nat)) : List Nat :=
  tr.filterMap (fun r => if r.1 = cursor then some r.2 else none)

/-- Modelled from the spec: `hasListeners()` — whether the current cursor
node has any registered listeners. -/
def hasListenerAt (tr : Trie) (cursor : List (List Nat)) : Bool :=
  !(listenersAt tr cursor).isEmpty

/-- Frame pushed by _onOpenBlock: container type, start offset, entry key and
the running array index. -/
structure Frame where
  type : Nat
  start : Nat
  key : List Nat
  index : Nat
deriving DecidableEq, Repr

/-- Mutable instance state of a FastJson object: `_stack` (head of the list
is the top of the stack), `_postColon`, `_lastString` (none models the
initial `{}` object with undefined offsets), `_skipped`, the EventTree
cursor (as the node path from the root; `down` appends, `up` drops the last
segment, `reset` empties — modelled from the spec), and the log of listener
invocations `(listener id, emitted slice)` in order. -/
structure ScanState where
  stack : List Frame
  postColon : Bool
  lastString : Option (Nat × Nat)
  skipped : Bool
  cursor : List (List Nat)
  log : List (Nat × List Nat)
deriving DecidableEq, Repr

/-- Result of running a piece of JavaScript: a value, a thrown TypeError
(property access on `undefined`), or divergence (an infinite loop caused by
reading past the end of the input, where `charCodeAt` returns NaN matching
no switch case). -/
inductive Outcome (α : Type) where
  | ok (a : α) : Outcome α
  | typeError : Outcome α
  | diverge : Outcome α
deriving DecidableEq, Repr

/-- State of a fresh FastJson instance (constructor). -/
def initState : ScanState :=
  { stack := [], postColon := false, lastString := none, skipped := false
    cursor := [], log := [] }

/-- data.slice(s, e) on a string: the code units at offsets [s, e). -/
def slice (data : List Nat) (s e : Nat) : List Nat :=
  (data.drop s).take (e - s)

/-- FastJson._parseString loop body with explicit fuel.  The source scans
from `index + 1`; a QUOTE returns the current offset, a BACKSLASH skips the
following byte (`i++` inside the case plus the loop increment), any other
byte advances by one.  An out-of-range read yields NaN, which matches no
case, so the loop never terminates: modelled by `none`. -/
def parseStringA (data : List Nat) : Nat → Nat → Option Nat
  | 0, _ => none
  | fuel + 1, i =>
    match data[i]? with
    | none => none
    | some c =>
      if c = QUOTE then some i
      else if c = BACKSLASH then parseStringA data fuel (i + 2)
      else parseStringA data fuel (i + 1)

/-- FastJson._parseString: scan for the terminating unescaped quote starting
at `index + 1`.  The fuel `data.length + 1` is an upper bound on the number
of loop iterations actually possible before the scan either returns or runs
past the end of the input. -/
def parseString (data : List Nat) (index : Nat) : Option Nat :=
  parseStringA data (data.length + 1) (index + 1)

/-- Token-terminating bytes of FastJson._parsePrimitive: CLOSE_BRACKET,
CLOSE_BRACE, COMMA, TAB, CARRIAGE_RETURN, NEW_LINE, SPACE. -/
def isTerminator (c : Nat) : Bool :=
  c = CLOSE_BRACKET ∨ c = CLOSE_BRACE ∨ c = COMMA ∨
  c = TAB ∨ c = CARRIAGE_RETURN ∨ c = NEW_LINE ∨ c = SPACE

/-- FastJson._parsePrimitive loop body with explicit fuel: scan from `index`
until a terminator byte, returning its offset; out-of-range reads loop
forever (`none`). -/
def parsePrimitiveA (data : List Nat) : Nat → Nat → Option Nat
  | 0, _ => none
  | fuel + 1, i =>
    match data[i]? with
    | none => none
    | some c =>
      if isTerminator c then some i
      else parsePrimitiveA data fuel (i + 1)

/-- FastJson._parsePrimitive. -/
def parsePrimitive (data : List Nat) (index : Nat) : Option Nat :=
  parsePrimitiveA data (data.length + 1) index

/-- FastJson._skipBlock loop with explicit fuel.  `blockDepth` starts at 1
and the scan starts at `index + 1`; the loop runs while the depth is
positive (checked before each read), a QUOTE jumps past the string via
_parseString, `openChar`/`closeChar` adjust the depth, and on exit the
function returns `i - 1`, the offset of the closing delimiter. -/
def skipBlockA (data : List Nat) (openChar closeChar : Nat) :
    Nat → Nat → Nat → Option Nat
  | 0, i, depth => if depth = 0 then some (i - 1) else none
  | fuel + 1, i, depth =>
    if depth = 0 then some (i - 1)
    else
      match data[i]? with
      | none => none
      | some c =>
        if c = QUOTE then
          match parseString data i with
          | none => none
          | some strEnd => skipBlockA data openChar closeChar fuel (strEnd + 1) depth
        else if c = openChar then skipBlockA data openChar closeChar fuel (i + 1) (depth + 1)
        else if c = closeChar then skipBlockA data openChar closeChar fuel (i + 1) (depth - 1)
        else skipBlockA data openChar closeChar fuel (i + 1) depth

/-- FastJson._skipBlock. -/
def skipBlock (data : List Nat) (index openChar closeChar : Nat) : Option Nat :=
  skipBlockA data openChar closeChar (data.length + 1) (index + 1) 1

/-- FastJson._getKeyForPrimitiveArray: the decimal string of the frame's
running index (JavaScript template literal of a Number). -/
def natToKey (n : Nat) : List Nat :=
  (Nat.toDigits 10 n).map Char.toNat

/-- FastJson._getKeyForPrimitiveObject: `_toString(data, _lastString.start,
_lastString.end)`.  On a fresh instance `_lastString` is `{}`, whose
`start`/`end` are `undefined`; `slice(undefined, undefined)` yields the whole
string. -/
def keyFromLastString (data : List Nat) : Option (Nat × Nat) → List Nat
  | none => data
  | some (s, e) => slice data s e

/-- FastJson._getKey: ROOT_KEY when the stack is empty, the stringified
array index when the enclosing frame is an array, otherwise the most recent
string. -/
def getKey (data : List Nat) (st : ScanState) : List Nat :=
  match st.stack with
  | [] => ROOT_KEY
  | f :: _ =>
    if f.type = TYPE_ARRAY then natToKey f.index
    else keyFromLastString data st.lastString

/-- FastJson.skip(): set the `_skipped` flag. -/
def skip (st : ScanState) : ScanState :=
  { st with skipped := true }

/-- EventTree.emit at the current cursor (modelled from the spec: invoke
every listener at the cursor node in registration order).  Each invocation
is logged; a listener whose behaviour `lskip` returns true calls `skip()`,
setting the `_skipped` flag.  The emit loop itself never consults the flag. -/
def emitAt (tr : Trie) (lskip : Nat → List Nat → Bool) (st : ScanState)
    (value : List Nat) : ScanState :=
  let ls := listenersAt tr st.cursor
  let st1 := { st with log := st.log ++ ls.map (fun id => (id, value)) }
  if ls.any (fun id => lskip id value) then skip st1 else st1

/-- Shared body of both branches of FastJson._emitPrimitiveOrString: if a
node for `key` exists below the cursor, move `down(key)`, emit the slice
when the node has listeners, and move `up()`. -/
def scalarEmit (tr : Trie) (lskip : Nat → List Nat → Bool) (data : List Nat)
    (st : ScanState) (key : List Nat) (s e : Nat) : ScanState :=
  if hasNodeAt tr st.cursor key then
    let stD := { st with cursor := st.cursor ++ [key] }
    let stE :=
      if hasListenerAt tr stD.cursor then emitAt tr lskip stD (slice data s e)
      else stD
    { stE with cursor := stE.cursor.dropLast }
  else st

/-- FastJson._emitPrimitiveOrString.  When `_postColon` is set the value key
is the last string; otherwise the source reads `frame.type` from the top of
the stack, which throws a TypeError when the stack is empty (`_getFrame()`
returns `undefined`); for an array frame the key is the stringified index;
for an object frame nothing is emitted. -/
def emitPrimitiveOrString (tr : Trie) (lskip : Nat → List Nat → Bool)
    (data : List Nat) (st : ScanState) (s e : Nat) : Outcome ScanState :=
  if st.postColon then
    .ok (scalarEmit tr lskip data st (keyFromLastString data st.lastString) s e)
  else
    match st.stack with
    | [] => .typeError
    | f :: _ =>
      if f.type = TYPE_ARRAY then
        .ok (scalarEmit tr lskip data st (natToKey f.index) s e)
      else .ok st

/-- FastJson._onOpenBlock: compute the entry key; if the trie has no node for
it below the cursor, jump past the container via _skipBlock with no other
effect; otherwise `down(key)`, push a frame, clear `_postColon` and return
the same index. -/
def onOpenBlock (tr : Trie) (data : List Nat) (st : ScanState) (index : Nat)
    (type openChar closeChar : Nat) : Outcome (ScanState × Nat) :=
  let key := getKey data st
  if hasNodeAt tr st.cursor key then
    .ok ({ st with
            cursor := st.cursor ++ [key]
            stack := { type := type, start := index, key := key, index := 0 } :: st.stack
            postColon := false }, index)
  else
    match skipBlock data index openChar closeChar with
    | none => .diverge
    | some j => .ok (st, j)

/-- FastJson._onCloseBlock: pop the top frame (a TypeError when the stack is
empty: `frame.end = index` on `undefined`), emit the inclusive slice of the
container when the cursor node has listeners, then `up()`. -/
def onCloseBlock (tr : Trie) (lskip : Nat → List Nat → Bool) (data : List Nat)
    (st : ScanState) (index : Nat) : Outcome ScanState :=
  match st.stack with
  | [] => .typeError
  | f :: rest =>
    let st1 := { st with stack := rest }
    let st2 :=
      if hasListenerAt tr st1.cursor then
        emitAt tr lskip st1 (slice data f.start (index + 1))
      else st1
    .ok { st2 with cursor := st2.cursor.dropLast }

/-- FastJson._onQuote: lex the string, treat it as a scalar value, clear
`_postColon`, record the string offsets in `_lastString`, and return
`index + ((strEnd - strStart) + 1)`. -/
def onQuote (tr : Trie) (lskip : Nat → List Nat → Bool) (data : List Nat)
    (st : ScanState) (index : Nat) : Outcome (ScanState × Nat) :=
  let strStart := index + 1
  match parseString data index with
  | none => .diverge
  | some strEnd =>
    match emitPrimitiveOrString tr lskip data st strStart strEnd with
    | .ok st1 =>
      .ok ({ st1 with postColon := false, lastString := some (strStart, strEnd) },
           index + ((strEnd - strStart) + 1))
    | .typeError => .typeError
    | .diverge => .diverge

/-- FastJson._onComma: read `frame.type` from the top of the stack (TypeError
when empty) and increment the index counter of an array frame. -/
def onComma (st : ScanState) : Outcome ScanState :=
  match st.stack with
  | [] => .typeError
  | f :: rest =>
    if f.type = TYPE_ARRAY then
      .ok { st with stack := { f with index := f.index + 1 } :: rest }
    else .ok st

/-- FastJson._onPrimitive: lex the primitive, treat it as a scalar value,
clear `_postColon`, and return `index + (primEnd - index - 1)`. -/
def onPrimitive (tr : Trie) (lskip : Nat → List Nat → Bool) (data : List Nat)
    (st : ScanState) (index : Nat) : Outcome (ScanState × Nat) :=
  match parsePrimitive data index with
  | none => .diverge
  | some primEnd =>
    match emitPrimitiveOrString tr lskip data st index primEnd with
    | .ok st1 =>
      .ok ({ st1 with postColon := false }, index + (primEnd - index - 1))
    | .typeError => .typeError
    | .diverge => .diverge

/-- The dispatch loop of FastJson.write: while `i < data.length` and the
`_skipped` flag is unset, classify `data[i]` and dispatch; handlers that
return an index reassign `i` before the loop increments it.  The loop runs
at most `data.length` iterations (every handler returns an index not below
the current one), so the fuel used by `write` never runs out. -/
def writeLoop (tr : Trie) (lskip : Nat → List Nat → Bool) (data : List Nat) :
    Nat → Nat → ScanState → Outcome ScanState
  | 0, i, st =>
    if i < data.length ∧ st.skipped = false then .diverge else .ok st
  | fuel + 1, i, st =>
    if i < data.length ∧ st.skipped = false then
        let c := data.getD i 0
        if c = OPEN_BRACE then
          match onOpenBlock tr data st i TYPE_OBJECT OPEN_BRACE CLOSE_BRACE with
          | .ok (st1, j) => writeLoop tr lskip data fuel (j + 1) st1
          | .typeError => .typeError
          | .diverge => .diverge
        else if c = OPEN_BRACKET then
          match onOpenBlock tr data st i TYPE_ARRAY OPEN_BRACKET CLOSE_BRACKET with
          | .ok (st1, j) => writeLoop tr lskip data fuel (j + 1) st1
          | .typeError => .typeError
          | .diverge => .diverge
        else if c = CLOSE_BRACE ∨ c = CLOSE_BRACKET then
          match onCloseBlock tr lskip data st i with
          | .ok st1 => writeLoop tr lskip data fuel (i + 1) st1
          | .typeError => .typeError
          | .diverge => .diverge
        else if c = QUOTE then
          match onQuote tr lskip data st i with
          | .ok (st1, j) => writeLoop tr lskip data fuel (j + 1) st1
          | .typeError => .typeError
          | .diverge => .diverge
        else if c = TAB ∨ c = CARRIAGE_RETURN ∨ c = NEW_LINE ∨ c = SPACE then
          writeLoop tr lskip data fuel (i + 1) st
        else if c = COLON then
          writeLoop tr lskip data fuel (i + 1) { st with postColon := true }
        else if c = COMMA then
          match onComma st with
          | .ok st1 => writeLoop tr lskip data fuel (i + 1) st1
          | .typeError => .typeError
          | .diverge => .diverge
        else
          match onPrimitive tr lskip data st i with
          | .ok (st1, j) => writeLoop tr lskip data fuel (j + 1) st1
          | .typeError => .typeError
          | .diverge => .diverge
    else .ok st

/-- FastJson._skipCleanUp: empty the stack, clear `_postColon` and
`_skipped`, and reset the trie cursor to the root.  `_lastString` and the
event log are untouched. -/
def skipCleanUp (st : ScanState) : ScanState :=
  { st with stack := [], postColon := false, skipped := false, cursor := [] }

/-- FastJson.write: run the dispatch loop from offset 0, then run
_skipCleanUp when the `_skipped` flag is set. -/
def write (tr : Trie) (lskip : Nat → List Nat → Bool) (data : List Nat)
    (st : ScanState) : Outcome ScanState :=
  match writeLoop tr lskip data (data.length + 1) 0 st with
  | .ok st1 => .ok (if st1.skipped then skipCleanUp st1 else st1)
  | .typeError => .typeError
  | .diverge => .diverge

/-- Listener behaviour that never calls skip(). -/
def lskipNone : Nat → List Nat → Bool := fun _ _ => false

/-- Listener behaviour where listener 0 always calls skip(). -/
def lskipZero : Nat → List Nat → Bool := fun id _ => id = 0

/-- Listener behaviour where every listener calls skip(). -/
def lskipAll : Nat → List Nat → Bool := fun _ _ => true

/-- Number of consecutive BACKSLASH bytes immediately before offset `k`,
counting only offsets strictly greater than `lo` (the opening quote).  This
is the spec-side notion used to say which quotes are escaped. -/
def bsRun (data : List Nat) (lo : Nat) : Nat → Nat
  | 0 => 0
  | k + 1 =>
    if lo + 1 ≤ k ∧ data[k]? = some BACKSLASH then bsRun data lo k + 1
    else 0

/-- Spec-side: offset `k` holds a closing quote for the string opened at
`lo` that is not escaped, i.e. it is preceded by an even number of
consecutive backslashes. -/
def UnescQuote (data : List Nat) (lo k : Nat) : Prop :=
  lo + 1 ≤ k ∧ data[k]? = some QUOTE ∧ bsRun data lo k % 2 = 0

instance (data : List Nat) (lo k : Nat) : Decidable (UnescQuote data lo k) := by
  unfold UnescQuote
  infer_instance

/-- Spec-side: `j` is the first unescaped closing quote after the quote
opened at `lo`; every earlier quote is preceded by an odd number of
backslashes. -/
def FirstUnesc (data : List Nat) (lo j : Nat) : Prop :=
  UnescQuote data lo j ∧
  ∀ m, m < j → lo + 1 ≤ m → data[m]? = some QUOTE → bsRun data lo m % 2 = 1

instance (data : List Nat) (lo j : Nat) : Decidable (FirstUnesc data lo j) := by
  unfold FirstUnesc
  infer_instance

/-- Spec-side grammar of the interior of a balanced container for the
delimiter pair `openChar`/`closeChar` (spec section 4.2): `Chunks i k` says
the region [i, k) decomposes into items, each of which is a byte that is not
a delimiter or quote, a quoted span traversed atomically via the string
lexer, or a nested balanced block. -/
inductive Chunks (data : List Nat) (oc cc : Nat) : Nat → Nat → Prop where
  | nil (i : Nat) : Chunks data oc cc i i
  | other (i k c : Nat) : data[i]? = some c → c ≠ oc → c ≠ cc → c ≠ QUOTE →
      Chunks data oc cc (i + 1) k → Chunks data oc cc i k
  | str (i j k : Nat) : data[i]? = some QUOTE → parseString data i = some j →
      Chunks data oc cc (j + 1) k → Chunks data oc cc i k
  | block (i m k : Nat) : data[i]? = some oc → Chunks data oc cc (i + 1) m →
      data[m]? = some cc → Chunks data oc cc (m + 1) k → Chunks data oc cc i k

/-- Spec-side: offset `i` opens a balanced container whose matching closing
delimiter sits at offset `j`: the interior decomposes into chunks and the
internal strings are terminated. -/
def Balanced (data : List Nat) (oc cc i j : Nat) : Prop :=
  data[i]? = some oc ∧ Chunks data oc cc (i + 1) j ∧ data[j]? = some cc

/-- Code units of the document `"hi"` (a well-formed top-level string). -/
def dataHi : List Nat := [34, 104, 105, 34]

/-- Code units of the document `true` followed by a newline. -/
def dataTrue : List Nat := [116, 114, 117, 101, 10]

/-- Code units of the document `{}`. -/
def dataEmptyObj : List Nat := [123, 125]

/-- Code units of the document `{"a":1}`. -/
def dataA1 : List Nat := [123, 34, 97, 34, 58, 49, 125]

/-- Code units of the document `[]`. -/
def dataArrEmpty : List Nat := [91, 93]

/-- Code units of the document `{"a":{}}`. -/
def dataNest : List Nat := [123, 34, 97, 34, 58, 123, 125, 125]

/-- Code units of the input `{"a}":1}`: the closing brace at offset 3 sits
inside a string. -/
def dataBrace : List Nat := [123, 34, 97, 125, 34, 58, 49, 125]

/-- Code units of the input `"a\"b"`: an escaped quote at offset 3. -/
def dataEsc : List Nat := [34, 97, 92, 34, 98, 34]

/-- Code units of the document `{"b":{"a":1}}`. -/
def dataSkip : List Nat := [123, 34, 98, 34, 58, 123, 34, 97, 34, 58, 49, 125, 125]

/-- Code units of the unterminated input `"ab`. -/
def dataUnterm : List Nat := [34, 97, 98]

/-- Trie with one listener (id 0) registered on the root path. -/
def trieRoot : Trie := register [] [] 0

/-- Trie with two listeners (ids 0 and 1, in that order) on the root path. -/
def trieRoot2 : Trie := register (register [] [] 0) [] 1

/-- Trie with listener 0 on path `a`. -/
def trieA : Trie := register [] [[97]] 0

/-- Trie with listener 0 on path `x`. -/
def trieX : Trie := register [] [[120]] 0

/-- Trie with listener 0 on path `x/a`: the segment `a` exists in the trie,
but only below `x`. -/
def trieXA : Trie := register [] [[120], [97]] 0

/-- Scanner state in the middle of scanning an object value: one object
frame is open, the colon was just consumed (`_postColon` set) and
`_lastString` holds the offsets (2, 3) of the preceding key. -/
def stPost : ScanState :=
  { stack := [{ type := TYPE_OBJECT, start := 0, key := ROOT_KEY, index := 0 }]
    postColon := true, lastString := some (2, 3), skipped := false
    cursor := [ROOT_KEY], log := [] }

/-- State of the write loop over `dataA1` with `trieA`/`lskipAll` at the
moment the `_skipped` flag is observed: the object frame is still open, the
cursor sits on the root node, and the emitted value `1` is logged. -/
def c3LoopState : ScanState :=
  { stack := [{ type := TYPE_OBJECT, start := 0, key := ROOT_KEY, index := 0 }]
    postColon := false, lastString := some (2, 3), skipped := true
    cursor := [ROOT_KEY], log := [(0, [49])] }

/-- Scanner state just after accepting the top-level `{` of `dataA1` with
`trieA`: one object frame, cursor on the root node. -/
def stFrame : ScanState :=
  { stack := [{ type := TYPE_OBJECT, start := 0, key := ROOT_KEY, index := 0 }]
    postColon := false, lastString := none, skipped := false
    cursor := [ROOT_KEY], log := [] }

theorem parseStringA_le (data : List Nat) :
    ∀ fuel i j, parseStringA data fuel i = some j →
      i ≤ j ∧ j < data.length ∧ data[j]? = some QUOTE := by
  intro fuel
  induction fuel with
  | zero => intro i j h; simp [parseStringA] at h
  | succ n ih =>
    intro i j h
    simp only [parseStringA] at h
    cases hd : data[i]? with
    | none => simp [hd] at h
    | some c =>
      simp only [hd] at h
      by_cases hq : c = QUOTE
      · rw [if_pos hq] at h
        cases h
        refine ⟨le_refl _, ?_, by rw [hd, hq]⟩
        exact (List.getElem?_eq_some.mp hd).1
      · rw [if_neg hq] at h
        by_cases hb : c = BACKSLASH
        · rw [if_pos hb] at h
          obtain ⟨h1, h2, h3⟩ := ih (i + 2) j h
          exact ⟨by omega, h2, h3⟩
        · rw [if_neg hb] at h
          obtain ⟨h1, h2, h3⟩ := ih (i + 1) j h
          exact ⟨by omega, h2, h3⟩

theorem parseString_le (data : List Nat) (index j : Nat)
    (h : parseString data index = some j) :
    index + 1 ≤ j ∧ j < data.length ∧ data[j]? = some QUOTE :=
  parseStringA_le data (data.length + 1) (index + 1) j h

theorem bsRun_succ_backslash (data : List Nat) (lo k : Nat)
    (h1 : lo + 1 ≤ k) (h2 : data[k]? = some BACKSLASH) :
    bsRun data lo (k + 1) = bsRun data lo k + 1 := by
  simp [bsRun, h1, h2]

theorem bsRun_succ_other (data : List Nat) (lo k : Nat)
    (h : ¬(lo + 1 ≤ k ∧ data[k]? = some BACKSLASH)) :
    bsRun data lo (k + 1) = 0 := by
  rw [bsRun, if_neg h]

theorem bsRun_start (data : List Nat) (lo : Nat) : bsRun data lo (lo + 1) = 0 := by
  rw [bsRun, if_neg]
  intro hc
  omega

theorem parseStringA_finds (data : List Nat) (lo : Nat) :
    ∀ fuel i j, lo + 1 ≤ i → bsRun data lo i % 2 = 0 →
      i ≤ j → data[j]? = some QUOTE → bsRun data lo j % 2 = 0 →
      (∀ m, m < j → i ≤ m → data[m]? = some QUOTE → bsRun data lo m % 2 = 1) →
      j + 1 ≤ i + fuel →
      parseStringA data fuel i = some j := by
  intro fuel
  induction fuel with
  | zero => intro i j _ _ h3 _ _ _ h7; omega
  | succ n ih =>
    intro i j hlo hev hij hjq hjev hfirst hfuel
    have hjlen : j < data.length := (List.getElem?_eq_some.mp hjq).1
    have hilen : i < data.length := by omega
    have hci : data[i]? = some data[i] := List.getElem?_eq_getElem hilen
    simp only [parseStringA, hci]
    by_cases hq : data[i] = QUOTE
    · have hieq : i = j := by
        rcases Nat.lt_or_ge i j with hlt | hge
        · have := hfirst i hlt (le_refl i) (by rw [hci, hq])
          omega
        · omega
      rw [if_pos hq, hieq]
    · rw [if_neg hq]
      have hinej : i ≠ j := by
        intro he
        subst he
        rw [hci] at hjq
        exact hq (Option.some_injective _ hjq)
      by_cases hb : data[i] = BACKSLASH
      · rw [if_pos hb]
        have hrun1 : bsRun data lo (i + 1) = bsRun data lo i + 1 :=
          bsRun_succ_backslash data lo i hlo (by rw [hci, hb])
        have hne2 : i + 1 ≠ j := by
          intro he
          rw [← he, hrun1] at hjev
          omega
        have hrun2 : bsRun data lo (i + 2) % 2 = 0 := by
          by_cases hb2 : lo + 1 ≤ i + 1 ∧ data[i + 1]? = some BACKSLASH
          · have : bsRun data lo (i + 1 + 1) = bsRun data lo (i + 1) + 1 :=
              bsRun_succ_backslash data lo (i + 1) hb2.1 hb2.2
            rw [show i + 2 = i + 1 + 1 from rfl, this, hrun1]
            omega
          · rw [show i + 2 = i + 1 + 1 from rfl, bsRun_succ_other data lo (i + 1) hb2]
        exact ih (i + 2) j (by omega) hrun2 (by omega) hjq hjev
          (fun m hm hm2 => hfirst m hm (by omega)) (by omega)
      · rw [if_neg hb]
        have hrun : bsRun data lo (i + 1) = 0 := by
          apply bsRun_succ_other
          intro hc
          rw [hci] at hc
          exact hb (Option.some_injective _ hc.2)
        exact ih (i + 1) j (by omega) (by rw [hrun]) (by omega) hjq hjev
          (fun m hm hm2 => hfirst m hm (by omega)) (by omega)

theorem parseStringA_some_unesc (data : List Nat) (lo : Nat) :
    ∀ fuel i j, lo + 1 ≤ i → bsRun data lo i % 2 = 0 →
      parseStringA data fuel i = some j → UnescQuote data lo j := by
  intro fuel
  induction fuel with
  | zero => intro i j _ _ h; simp [parseStringA] at h
  | succ n ih =>
    intro i j hlo hev h
    simp only [parseStringA] at h
    cases hd : data[i]? with
    | none => simp [hd] at h
    | some c =>
      simp only [hd] at h
      by_cases hq : c = QUOTE
      · rw [if_pos hq] at h
        cases h
        exact ⟨hlo, by rw [hd, hq], hev⟩
      · rw [if_neg hq] at h
        by_cases hb : c = BACKSLASH
        · rw [if_pos hb] at h
          have hrun1 : bsRun data lo (i + 1) = bsRun data lo i + 1 :=
            bsRun_succ_backslash data lo i hlo (by rw [hd, hb])
          have hrun2 : bsRun data lo (i + 2) % 2 = 0 := by
            by_cases hb2 : lo + 1 ≤ i + 1 ∧ data[i + 1]? = some BACKSLASH
            · have : bsRun data lo (i + 1 + 1) = bsRun data lo (i + 1) + 1 :=
                bsRun_succ_backslash data lo (i + 1) hb2.1 hb2.2
              rw [show i + 2 = i + 1 + 1 from rfl, this, hrun1]
              omega
            · rw [show i + 2 = i + 1 + 1 from rfl, bsRun_succ_other data lo (i + 1) hb2]
          exact ih (i + 2) j (by omega) hrun2 h
        · rw [if_neg hb] at h
          have hrun : bsRun data lo (i + 1) = 0 := by
            apply bsRun_succ_other
            intro hc
            rw [hd] at hc
            exact hb (Option.some_injective _ hc.2)
          exact ih (i + 1) j (by omega) (by rw [hrun]) h

theorem parsePrimitiveA_sound (data : List Nat) :
    ∀ fuel i k, parsePrimitiveA data fuel i = some k →
      i ≤ k ∧ ∃ c, data[k]? = some c ∧ isTerminator c = true := by
  intro fuel
  induction fuel with
  | zero => intro i k h; simp [parsePrimitiveA] at h
  | succ n ih =>
    intro i k h
    simp only [parsePrimitiveA] at h
    cases hd : data[i]? with
    | none => simp [hd] at h
    | some c =>
      simp only [hd] at h
      by_cases ht : isTerminator c = true
      · rw [if_pos ht] at h
        cases h
        exact ⟨le_refl _, c, hd, ht⟩
      · rw [if_neg ht] at h
        obtain ⟨h1, h2⟩ := ih (i + 1) k h
        exact ⟨by omega, h2⟩

theorem parsePrimitiveA_complete (data : List Nat) :
    ∀ fuel i k c, i ≤ k → k + 1 ≤ i + fuel → data[k]? = some c →
      isTerminator c = true → (parsePrimitiveA data fuel i).isSome = true := by
  intro fuel
  induction fuel with
  | zero => intro i k c h1 h2; omega
  | succ n ih =>
    intro i k c hik hfuel hkc htc
    have hklen : k < data.length := (List.getElem?_eq_some.mp hkc).1
    have hilen : i < data.length := by omega
    have hci : data[i]? = some data[i] := List.getElem?_eq_getElem hilen
    simp only [parsePrimitiveA, hci]
    by_cases ht : isTerminator data[i] = true
    · rw [if_pos ht]
      rfl
    · rw [if_neg ht]
      have : i ≠ k := by
        intro he
        subst he
        rw [hci] at hkc
        rw [Option.some_injective _ hkc] at ht
        exact ht htc
      exact ih (i + 1) k c (by omega) (by omega) hkc htc

theorem skipBlockA_mono (data : List Nat) (oc cc : Nat) :
    ∀ fuel g i depth r, fuel ≤ g →
      skipBlockA data oc cc fuel i depth = some r →
      skipBlockA data oc cc g i depth = some r := by
  intro fuel
  induction fuel with
  | zero =>
    intro g i d r _ h
    simp only [skipBlockA] at h
    by_cases hd : d = 0
    · rw [if_pos hd] at h
      cases g with
      | zero => simp only [skipBlockA]; rw [if_pos hd]; exact h
      | succ m => simp only [skipBlockA]; rw [if_pos hd]; exact h
    · rw [if_neg hd] at h
      cases h
  | succ n ih =>
    intro g i d r hle h
    by_cases hd : d = 0
    · cases g with
      | zero => simp only [skipBlockA] at h ⊢; rw [if_pos hd] at h ⊢; exact h
      | succ m => simp only [skipBlockA] at h ⊢; rw [if_pos hd] at h ⊢; exact h
    · obtain ⟨m, rfl⟩ : ∃ m, g = m + 1 := ⟨g - 1, by omega⟩
      have hnm : n ≤ m := by omega
      simp only [skipBlockA] at h ⊢
      rw [if_neg hd] at h ⊢
      cases hci : data[i]? with
      | none => rw [hci] at h; cases h
      | some c =>
        simp only [hci] at h ⊢
        by_cases hq : c = QUOTE
        · rw [if_pos hq] at h ⊢
          cases hps : parseString data i with
          | none => rw [hps] at h; cases h
          | some strEnd =>
            simp only [hps] at h ⊢
            exact ih m (strEnd + 1) d r hnm h
        · rw [if_neg hq] at h ⊢
          by_cases ho : c = oc
          · rw [if_pos ho] at h ⊢
            exact ih m (i + 1) (d + 1) r hnm h
          · rw [if_neg ho] at h ⊢
            by_cases hc : c = cc
            · rw [if_pos hc] at h ⊢
              exact ih m (i + 1) (d - 1) r hnm h
            · rw [if_neg hc] at h ⊢
              exact ih m (i + 1) d r hnm h

theorem skipBlockA_adequate (data : List Nat) (oc cc : Nat) :
    ∀ fuel g i depth, data.length + 1 ≤ i + fuel → data.length + 1 ≤ i + g →
      skipBlockA data oc cc fuel i depth = skipBlockA data oc cc g i depth := by
  intro fuel
  induction fuel with
  | zero =>
    intro g i d h1 h2
    have hlen : data.length < i := by omega
    have hci : data[i]? = none := List.getElem?_eq_none (by omega)
    by_cases hd : d = 0
    · cases g with
      | zero => rfl
      | succ m => simp only [skipBlockA]; rw [if_pos hd, if_pos hd]
    · cases g with
      | zero => rfl
      | succ m =>
        simp only [skipBlockA]
        rw [if_neg hd, if_neg hd, hci]
  | succ n ih =>
    intro g i d h1 h2
    by_cases hd : d = 0
    · cases g with
      | zero => simp only [skipBlockA]; rw [if_pos hd, if_pos hd]
      | succ m => simp only [skipBlockA]; rw [if_pos hd, if_pos hd]
    · cases g with
      | zero =>
        have hci : data[i]? = none := List.getElem?_eq_none (by omega)
        simp only [skipBlockA]
        rw [if_neg hd, if_neg hd, hci]
      | succ m =>
        simp only [skipBlockA]
        rw [if_neg hd, if_neg hd]
        cases hci : data[i]? with
        | none => rfl
        | some c =>
          by_cases hq : c = QUOTE
          · simp only [if_pos hq]
            cases hps : parseString data i with
            | none => rfl
            | some strEnd =>
              have hse := parseString_le data i strEnd hps
              exact ih m (strEnd + 1) d (by omega) (by omega)
          · simp only [if_neg hq]
            by_cases ho : c = oc
            · simp only [if_pos ho]
              exact ih m (i + 1) (d + 1) (by omega) (by omega)
            · simp only [if_neg ho]
              by_cases hc : c = cc
              · simp only [if_pos hc]
                exact ih m (i + 1) (d - 1) (by omega) (by omega)
              · simp only [if_neg hc]
                exact ih m (i + 1) d (by omega) (by omega)

theorem chunksStep (data : List Nat) (oc cc : Nat)
    (hocq : oc ≠ QUOTE) (hccq : cc ≠ QUOTE) (hoc : oc ≠ cc) :
    ∀ i k, Chunks data oc cc i k →
      ∀ d r, 0 < d →
        (∃ f, skipBlockA data oc cc f k d = some r) →
        ∃ f, skipBlockA data oc cc f i d = some r := by
  intro i k h
  induction h with
  | nil => intro d r _ hex; exact hex
  | other i k c hci hco hcc hcq _ ih =>
    intro d r hd hex
    obtain ⟨f, hf⟩ := ih d r hd hex
    refine ⟨f + 1, ?_⟩
    simp only [skipBlockA]
    rw [if_neg (by omega)]
    simp only [hci, if_neg hcq, if_neg hco, if_neg hcc]
    exact hf
  | str i j k hq hps _ ih =>
    intro d r hd hex
    obtain ⟨f, hf⟩ := ih d r hd hex
    refine ⟨f + 1, ?_⟩
    simp only [skipBlockA]
    rw [if_neg (by omega)]
    simp only [hq, hps, if_pos]
    exact hf
  | block i m k hoi hmid hcm htail ihmid ihtail =>
    intro d r hd hex
    obtain ⟨f2, hf2⟩ := ihtail d r hd hex
    have hm : skipBlockA data oc cc (f2 + 1) m (d + 1) = some r := by
      simp only [skipBlockA]
      rw [if_neg (by omega)]
      simp only [hcm, if_neg hccq, if_neg (Ne.symm hoc), if_pos,
        Nat.add_sub_cancel]
      exact hf2
    obtain ⟨f1, hf1⟩ := ihmid (d + 1) r (by omega) ⟨f2 + 1, hm⟩
    refine ⟨f1 + 1, ?_⟩
    simp only [skipBlockA]
    rw [if_neg (by omega)]
    simp only [hoi, if_neg hocq, if_pos]
    exact hf1

theorem skipBlock_balanced (data : List Nat) (oc cc i j : Nat)
    (hoc : oc ≠ cc) (hocq : oc ≠ QUOTE) (hccq : cc ≠ QUOTE)
    (hb : Balanced data oc cc i j) :
    skipBlock data i oc cc = some j := by
  obtain ⟨hopen, hchunks, hclose⟩ := hb
  have hbase : skipBlockA data oc cc 1 j 1 = some j := by
    simp only [skipBlockA]
    rw [if_neg one_ne_zero]
    simp [skipBlockA, hclose, if_neg hccq, if_neg (Ne.symm hoc)]
  obtain ⟨f, hf⟩ :=
    chunksStep data oc cc hocq hccq hoc (i + 1) j hchunks 1 j (by omega) ⟨1, hbase⟩
  have hmono := skipBlockA_mono data oc cc f (max f (data.length + 1)) (i + 1) 1 j
    (le_max_left _ _) hf
  have hadq := skipBlockA_adequate data oc cc (data.length + 1)
    (max f (data.length + 1)) (i + 1) 1 (by omega)
    (by have := le_max_right f (data.length + 1); omega)
  unfold skipBlock
  rw [hadq]
  exact hmono

theorem emitAt_fields (tr : Trie) (lskip : Nat → List Nat → Bool)
    (st : ScanState) (value : List Nat) :
    (emitAt tr lskip st value).cursor = st.cursor ∧
    (emitAt tr lskip st value).stack = st.stack ∧
    (emitAt tr lskip st value).postColon = st.postColon ∧
    (emitAt tr lskip st value).lastString = st.lastString := by
  simp only [emitAt, skip]
  split <;> exact ⟨rfl, rfl, rfl, rfl⟩

theorem scalarEmit_fields (tr : Trie) (lskip : Nat → List Nat → Bool)
    (data : List Nat) (st : ScanState) (key : List Nat) (s e : Nat) :
    (scalarEmit tr lskip data st key s e).cursor = st.cursor ∧
    (scalarEmit tr lskip data st key s e).stack = st.stack ∧
    (scalarEmit tr lskip data st key s e).postColon = st.postColon ∧
    (scalarEmit tr lskip data st key s e).lastString = st.lastString := by
  by_cases hn : hasNodeAt tr st.cursor key = true
  · by_cases hl : hasListenerAt tr (st.cursor ++ [key]) = true
    · obtain ⟨h1, h2, h3, h4⟩ :=
        emitAt_fields tr lskip { st with cursor := st.cursor ++ [key] } (slice data s e)
      simp [scalarEmit, hn, hl, h1, h2, h3, h4]
    · simp [scalarEmit, hn, hl]
  · simp [scalarEmit, hn]

theorem emitPOS_ok_fields (tr : Trie) (lskip : Nat → List Nat → Bool)
    (data : List Nat) (st : ScanState) (s e : Nat) (st1 : ScanState)
    (h : emitPrimitiveOrString tr lskip data st s e = .ok st1) :
    st1.cursor = st.cursor ∧ st1.stack = st.stack ∧
    st1.lastString = st.lastString := by
  unfold emitPrimitiveOrString at h
  by_cases hp : st.postColon = true
  · rw [if_pos hp] at h
    obtain ⟨h1, h2, _, h4⟩ :=
      scalarEmit_fields tr lskip data st (keyFromLastString data st.lastString) s e
    cases h
    exact ⟨h1, h2, h4⟩
  · rw [if_neg hp] at h
    cases hs : st.stack with
    | nil => simp [hs] at h
    | cons f rest =>
      simp only [hs] at h
      by_cases ht : f.type = TYPE_ARRAY
      · rw [if_pos ht] at h
        obtain ⟨h1, h2, _, h4⟩ :=
          scalarEmit_fields tr lskip data st (natToKey f.index) s e
        cases h
        exact ⟨h1, h2.trans hs, h4⟩
      · rw [if_neg ht] at h
        cases h
        exact ⟨rfl, hs, rfl⟩

/-- C6: for every input and every offset of an opening delimiter of a
balanced container (with matching closing delimiter and internally
terminated strings), the block-skip scanner started with depth 1 returns
exactly the offset of the matching closing delimiter; quoted spans are
traversed atomically via the string lexer, so delimiter characters inside
strings affect neither the depth counter nor the result. -/
theorem c6_skipBlock_matching (data : List Nat) (oc cc i j : Nat)
    (hoc : oc ≠ cc) (hocq : oc ≠ QUOTE) (hccq : cc ≠ QUOTE)
    (hb : Balanced data oc cc i j) :
    skipBlock data i oc cc = some j :=
  skipBlock_balanced data oc cc i j hoc hocq hccq hb

/-- Witness for C6 on `{"a}":1}`: the brace at offset 3 lies inside the
string spanning offsets 1 to 4, and _skipBlock returns the true closing
brace at offset 7, not 3. -/
theorem c6_skipBlock_matching_witness :
    (OPEN_BRACE ≠ CLOSE_BRACE ∧ OPEN_BRACE ≠ QUOTE ∧ CLOSE_BRACE ≠ QUOTE ∧
      Balanced dataBrace OPEN_BRACE CLOSE_BRACE 0 7) ∧
    skipBlock dataBrace 0 OPEN_BRACE CLOSE_BRACE = some 7 := by
  have hb : Balanced dataBrace OPEN_BRACE CLOSE_BRACE 0 7 := by
    refine ⟨by decide, ?_, by decide⟩
    exact Chunks.str 1 4 7 (by decide) (by decide)
      (Chunks.other 5 7 58 (by decide) (by decide) (by decide) (by decide)
        (Chunks.other 6 7 49 (by decide) (by decide) (by decide) (by decide)
          (Chunks.nil 7)))
  exact ⟨⟨by decide, by decide, by decide, hb⟩,
    c6_skipBlock_matching dataBrace OPEN_BRACE CLOSE_BRACE 0 7
      (by decide) (by decide) (by decide) hb⟩

/-- C7: for every input and every opening-quote offset such that a
terminating unescaped quote exists later (formally: `j` is the first quote
after `index` preceded by an even number of consecutive backslashes), the
string lexer returns exactly `j`; each backslash skips exactly the one
following byte, so an escaped quote does not terminate the string. -/
theorem c7_parseString_first_unescaped (data : List Nat) (index j : Nat)
    (h : FirstUnesc data index j) :
    parseString data index = some j := by
  obtain ⟨⟨hlt, hjq, hjev⟩, hfirst⟩ := h
  have hjlen : j < data.length := (List.getElem?_eq_some.mp hjq).1
  unfold parseString
  exact parseStringA_finds data index (data.length + 1) (index + 1) j
    (le_refl _) (by rw [bsRun_start]) hlt hjq hjev
    (fun m hm hm2 => hfirst m hm hm2) (by omega)

/-- Witness for C7 on `"a\"b"`: the quote at offset 3 is preceded by one
backslash (odd, escaped); the first unescaped quote is at offset 5, and the
lexer returns 5. -/
theorem c7_parseString_first_unescaped_witness :
    FirstUnesc dataEsc 0 5 ∧ parseString dataEsc 0 = some 5 :=
  ⟨by decide, c7_parseString_first_unescaped dataEsc 0 5 (by decide)⟩

/-- C10: the string lexer terminates exactly when an unescaped closing quote
exists after the scan start, and the primitive lexer terminates exactly when
a terminator byte (`}`, `]`, comma, space, tab, CR, LF) exists at or after
the scan start; neither loop is bounded by the input length — an
out-of-range read matches no case — so on input lacking the terminator the
loop never returns (modelled by `none`) and `write` does not terminate
(third conjunct: `write` on the unterminated string `"ab` diverges). -/
theorem c10_lexer_termination :
    (∀ data lo, (parseString data lo).isSome = true ↔
      ∃ k, UnescQuote data lo k) ∧
    (∀ data i, (parsePrimitive data i).isSome = true ↔
      ∃ k c, i ≤ k ∧ data[k]? = some c ∧ isTerminator c = true) ∧
    write [] lskipNone dataUnterm initState = .diverge := by
  refine ⟨?_, ?_, by decide⟩
  · intro data lo
    constructor
    · intro h
      obtain ⟨j, hj⟩ := Option.isSome_iff_exists.mp h
      exact ⟨j, parseStringA_some_unesc data lo (data.length + 1) (lo + 1) j
        (le_refl _) (by rw [bsRun_start]) hj⟩
    · rintro ⟨k, hk⟩
      have hex : ∃ n, UnescQuote data lo n := ⟨k, hk⟩
      obtain ⟨hlt, hjq, hjev⟩ := Nat.find_spec hex
      have hjlen : Nat.find hex < data.length := (List.getElem?_eq_some.mp hjq).1
      have hfind := parseStringA_finds data lo (data.length + 1) (lo + 1)
        (Nat.find hex) (le_refl _) (by rw [bsRun_start]) hlt hjq hjev
        (fun m hm hm2 hq3 => by
          have hnot := Nat.find_min hex hm
          unfold UnescQuote at hnot
          have : ¬(bsRun data lo m % 2 = 0) := fun he => hnot ⟨hm2, hq3, he⟩
          omega)
        (by omega)
      unfold parseString
      rw [hfind]
      rfl
  · intro data i
    constructor
    · intro h
      obtain ⟨k, hk⟩ := Option.isSome_iff_exists.mp h
      obtain ⟨h1, c, h2, h3⟩ := parsePrimitiveA_sound data (data.length + 1) i k hk
      exact ⟨k, c, h1, h2, h3⟩
    · rintro ⟨k, c, h1, h2, h3⟩
      have hklen : k < data.length := (List.getElem?_eq_some.mp h2).1
      exact parsePrimitiveA_complete data (data.length + 1) i k c h1 (by omega) h2 h3

/-- C4: when a container's entry key has no node under the current trie
cursor, _onOpenBlock returns the scanner state completely unchanged (no
frame push, no cursor movement, no listener invocation — the log is that of
`st`) together with the offset of the container's matching closing
delimiter; this holds for any trie, in particular one containing a
structurally identical path elsewhere. -/
theorem c4_skip_no_effect (tr : Trie) (data : List Nat) (st : ScanState)
    (i type oc cc m : Nat)
    (hnode : hasNodeAt tr st.cursor (getKey data st) = false)
    (hoc : oc ≠ cc) (hocq : oc ≠ QUOTE) (hccq : cc ≠ QUOTE)
    (hb : Balanced data oc cc i m) :
    onOpenBlock tr data st i type oc cc = .ok (st, m) := by
  have hsb := skipBlock_balanced data oc cc i m hoc hocq hccq hb
  simp [onOpenBlock, hnode, hsb]

/-- Witness for C4 on `{"b":{"a":1}}` with the single registered path `x/a`:
the inner object's entry key `b` has no node below the root, so the whole
container (offsets 5 to 11) is skipped with no state change, even though a
node `a` exists elsewhere in the trie (below `x`). -/
theorem c4_skip_no_effect_witness :
    (hasNodeAt trieXA stPost.cursor (getKey dataSkip stPost) = false ∧
      Balanced dataSkip OPEN_BRACE CLOSE_BRACE 5 11) ∧
    onOpenBlock trieXA dataSkip stPost 5 TYPE_OBJECT OPEN_BRACE CLOSE_BRACE =
      .ok (stPost, 11) := by
  have hb : Balanced dataSkip OPEN_BRACE CLOSE_BRACE 5 11 := by
    refine ⟨by decide, ?_, by decide⟩
    exact Chunks.str 6 8 11 (by decide) (by decide)
      (Chunks.other 9 11 58 (by decide) (by decide) (by decide) (by decide)
        (Chunks.other 10 11 49 (by decide) (by decide) (by decide) (by decide)
          (Chunks.nil 11)))
  exact ⟨⟨by decide, hb⟩,
    c4_skip_no_effect trieXA dataSkip stPost 5 TYPE_OBJECT OPEN_BRACE CLOSE_BRACE 11
      (by decide) (by decide) (by decide) (by decide) hb⟩

/-- C8: trie-cursor/stack congruence of the single handlers: starting from a
state whose cursor depth equals its stack depth, an accepted or skipped open
preserves the equality (push pairs with one `down`), a successful close
preserves it (pop pairs with one `up`), and scalar emission (quote or
primitive handler) performs a balanced down/up pair leaving cursor and stack
exactly unchanged. -/
theorem c8_cursor_stack_congruence (tr : Trie) (lskip : Nat → List Nat → Bool)
    (data : List Nat) (st : ScanState) (i type oc cc : Nat)
    (h : st.cursor.length = st.stack.length) :
    (∀ st1 j, onOpenBlock tr data st i type oc cc = .ok (st1, j) →
      st1.cursor.length = st1.stack.length) ∧
    (∀ st1, onCloseBlock tr lskip data st i = .ok st1 →
      st1.cursor.length = st1.stack.length) ∧
    (∀ st1 j, onQuote tr lskip data st i = .ok (st1, j) →
      st1.cursor = st.cursor ∧ st1.stack = st.stack) ∧
    (∀ st1 j, onPrimitive tr lskip data st i = .ok (st1, j) →
      st1.cursor = st.cursor ∧ st1.stack = st.stack) := by
  refine ⟨?_, ?_, ?_, ?_⟩
  · intro st1 j hok
    unfold onOpenBlock at hok
    cases hn : hasNodeAt tr st.cursor (getKey data st) with
    | true =>
      simp [hn] at hok
      obtain ⟨h1, h2⟩ := hok
      subst h1
      simp [h]
    | false =>
      cases hsb : skipBlock data i oc cc with
      | none => simp [hn, hsb] at hok
      | some j2 =>
        simp [hn, hsb] at hok
        obtain ⟨h1, h2⟩ := hok
        subst h1
        exact h
  · intro st1 hok
    unfold onCloseBlock at hok
    cases hs : st.stack with
    | nil => simp [hs] at hok
    | cons f rest =>
      have hlen : st.stack.length = rest.length + 1 := by rw [hs]; rfl
      simp only [hs] at hok
      by_cases hl : hasListenerAt tr st.cursor = true
      · obtain ⟨e1, e2, _, _⟩ :=
          emitAt_fields tr lskip { st with stack := rest } (slice data f.start (i + 1))
        simp [hl, e1, e2] at hok
        subst hok
        simp [e1, e2, List.length_dropLast]
        omega
      · simp [hl] at hok
        subst hok
        simp [List.length_dropLast]
        omega
  · intro st1 j hok
    unfold onQuote at hok
    cases hps : parseString data i with
    | none => simp [hps] at hok
    | some strEnd =>
      simp only [hps] at hok
      cases hE : emitPrimitiveOrString tr lskip data st (i + 1) strEnd with
      | ok st2 =>
        simp [hE] at hok
        obtain ⟨h1, h2⟩ := hok
        subst h1
        obtain ⟨e1, e2, _⟩ := emitPOS_ok_fields tr lskip data st (i + 1) strEnd st2 hE
        exact ⟨e1, e2⟩
      | typeError => simp [hE] at hok
      | diverge => simp [hE] at hok
  · intro st1 j hok
    unfold onPrimitive at hok
    cases hps : parsePrimitive data i with
    | none => simp [hps] at hok
    | some primEnd =>
      simp only [hps] at hok
      cases hE : emitPrimitiveOrString tr lskip data st i primEnd with
      | ok st2 =>
        simp [hE] at hok
        obtain ⟨h1, h2⟩ := hok
        subst h1
        obtain ⟨e1, e2, _⟩ := emitPOS_ok_fields tr lskip data st i primEnd st2 hE
        exact ⟨e1, e2⟩
      | typeError => simp [hE] at hok
      | diverge => simp [hE] at hok

/-- Witness for C8: in `initState` (cursor depth 0 = stack depth 0) the
accepted top-level `{` of `dataA1` yields a state with one frame and cursor
depth 1. -/
theorem c8_cursor_stack_congruence_witness :
    initState.cursor.length = initState.stack.length ∧
    stFrame.cursor.length = stFrame.stack.length :=
  ⟨rfl,
    (c8_cursor_stack_congruence trieA lskipNone dataA1 initState 0
        TYPE_OBJECT OPEN_BRACE CLOSE_BRACE rfl).1 stFrame 0 (by decide)⟩

/-- C9 counterexample: with the single registered path `x`, the object value
opening at offset 5 of `{"a":{}}` has entry key `a`, which has no trie node,
so the container is skipped — and the handler returns the state unchanged
with `_postColon` still true.  The claim states the flag is false after a
skipped opening delimiter is processed. -/
theorem c9_counterexample :
    onOpenBlock trieX dataNest stPost 5 TYPE_OBJECT OPEN_BRACE CLOSE_BRACE =
      .ok (stPost, 6) ∧ stPost.postColon = true := by
  exact ⟨by decide, by decide⟩

/-- C9 as amended: scalar tokens and accepted opening delimiters reset the
`_postColon` flag to false; a skipped opening delimiter and a closing
delimiter leave the flag unchanged (in particular it can remain true after a
skip). -/
theorem c9_amended_flag (tr : Trie) (lskip : Nat → List Nat → Bool)
    (data : List Nat) (st : ScanState) (i type oc cc : Nat) :
    (∀ st1 j, onQuote tr lskip data st i = .ok (st1, j) →
      st1.postColon = false) ∧
    (∀ st1 j, onPrimitive tr lskip data st i = .ok (st1, j) →
      st1.postColon = false) ∧
    (hasNodeAt tr st.cursor (getKey data st) = true →
      ∀ st1 j, onOpenBlock tr data st i type oc cc = .ok (st1, j) →
        st1.postColon = false) ∧
    (hasNodeAt tr st.cursor (getKey data st) = false →
      ∀ st1 j, onOpenBlock tr data st i type oc cc = .ok (st1, j) →
        st1.postColon = st.postColon) ∧
    (∀ st1, onCloseBlock tr lskip data st i = .ok st1 →
      st1.postColon = st.postColon) := by
  refine ⟨?_, ?_, ?_, ?_, ?_⟩
  · intro st1 j hok
    unfold onQuote at hok
    cases hps : parseString data i with
    | none => simp [hps] at hok
    | some strEnd =>
      simp only [hps] at hok
      cases hE : emitPrimitiveOrString tr lskip data st (i + 1) strEnd with
      | ok st2 =>
        simp [hE] at hok
        obtain ⟨h1, h2⟩ := hok
        subst h1
        rfl
      | typeError => simp [hE] at hok
      | diverge => simp [hE] at hok
  · intro st1 j hok
    unfold onPrimitive at hok
    cases hps : parsePrimitive data i with
    | none => simp [hps] at hok
    | some primEnd =>
      simp only [hps] at hok
      cases hE : emitPrimitiveOrString tr lskip data st i primEnd with
      | ok st2 =>
        simp [hE] at hok
        obtain ⟨h1, h2⟩ := hok
        subst h1
        rfl
      | typeError => simp [hE] at hok
      | diverge => simp [hE] at hok
  · intro hn st1 j hok
    unfold onOpenBlock at hok
    simp [hn] at hok
    obtain ⟨h1, h2⟩ := hok
    subst h1
    rfl
  · intro hn st1 j hok
    unfold onOpenBlock at hok
    cases hsb : skipBlock data i oc cc with
    | none => simp [hn, hsb] at hok
    | some j2 =>
      simp [hn, hsb] at hok
      obtain ⟨h1, h2⟩ := hok
      subst h1
      rfl
  · intro st1 hok
    unfold onCloseBlock at hok
    cases hs : st.stack with
    | nil => simp [hs] at hok
    | cons f rest =>
      simp only [hs] at hok
      by_cases hl : hasListenerAt tr st.cursor = true
      · obtain ⟨_, _, e3, _⟩ :=
          emitAt_fields tr lskip { st with stack := rest } (slice data f.start (i + 1))
        simp [hl] at hok
        subst hok
        exact e3
      · simp [hl] at hok
        subst hok
        rfl

/-- Witness for C9 as amended: the quote handler on the key string of
`{"a":1}` (from the one-frame state) leaves `_postColon` false. -/
theorem c9_amended_flag_witness :
    onQuote trieA lskipNone dataA1 stFrame 1 =
      .ok ({ stFrame with lastString := some (2, 3) }, 3) ∧
    ({ stFrame with lastString := some (2, 3) } : ScanState).postColon = false :=
  ⟨by decide,
    (c9_amended_flag trieA lskipNone dataA1 stFrame 1
        TYPE_OBJECT OPEN_BRACE CLOSE_BRACE).1
      { stFrame with lastString := some (2, 3) } 3 (by decide)⟩

/-- C3 counterexample: a full run of `write` over `{"a":1}` with a listener
on path `a` that calls `skip()`.  The returned state has an empty stack,
cleared flags and the cursor at the root, but `_lastString` still holds the
offsets (2, 3) of the key `a` — _skipCleanUp never touches `_lastString`, so
the PendingStringSpan is not cleared as the claim states. -/
theorem c3_counterexample :
    write trieA lskipAll dataA1 initState =
      .ok { stack := [], postColon := false, lastString := some (2, 3),
            skipped := false, cursor := [], log := [(0, [49])] } ∧
    some (2, 3) ≠ (none : Option (Nat × Nat)) := by
  exact ⟨by decide, by decide⟩

/-- C3 as amended: after a write in which skip() was observed, _skipCleanUp
runs before `write` returns and empties the stack, clears the post-colon and
skipped flags and resets the trie cursor to the root — but the
PendingStringSpan (`_lastString`) is left unchanged, as is the event log. -/
theorem c3_amended_cleanup :
    (∀ st : ScanState, skipCleanUp st =
      { stack := [], postColon := false, lastString := st.lastString,
        skipped := false, cursor := [], log := st.log }) ∧
    (∀ (tr : Trie) (lskip : Nat → List Nat → Bool) (data : List Nat)
        (st0 st1 : ScanState),
      writeLoop tr lskip data (data.length + 1) 0 st0 = .ok st1 →
      st1.skipped = true →
      write tr lskip data st0 = .ok (skipCleanUp st1)) := by
  constructor
  · intro st
    rfl
  · intro tr lskip data st0 st1 hloop hsk
    simp [write, hloop, hsk]

/-- Witness for C3 as amended, on the `{"a":1}` run that skips: the loop
ends in `c3LoopState` with the skipped flag set, and `write` returns its
cleanup. -/
theorem c3_amended_cleanup_witness :
    (writeLoop trieA lskipAll dataA1 (dataA1.length + 1) 0 initState =
        .ok c3LoopState ∧ c3LoopState.skipped = true) ∧
    write trieA lskipAll dataA1 initState = .ok (skipCleanUp c3LoopState) :=
  ⟨⟨by decide, by decide⟩,
    c3_amended_cleanup.2 trieA lskipAll dataA1 initState c3LoopState
      (by decide) (by decide)⟩

/-- C5 counterexample: two listeners (ids 0 and 1, in registration order) on
the root path; listener 0 calls skip() when invoked.  On `[]` the close
handler's emit invokes listener 0 — which sets the `_skipped` flag — and
then still invokes listener 1 within the same emit (its entry `(1, [91,93])`
is in the log), so a listener is invoked after skip() was called during the
write, contradicting the claim that no further listener is invoked. -/
theorem c5_counterexample :
    write trieRoot2 lskipZero dataArrEmpty initState =
      .ok { stack := [], postColon := false, lastString := none,
            skipped := false, cursor := [],
            log := [(0, [91, 93]), (1, [91, 93])] } := by
  decide

/-- C5 as amended: once the `_skipped` flag is set, the write loop performs
no further dispatch iteration — the cancellation is observed at the start of
the next top-level dispatch iteration, so no listener is invoked in any
later iteration and the state is returned unchanged; however, listeners
later in the same emit as the skip() call still run (see the
counterexample), and a token scan in progress completes because handlers are
atomic. -/
theorem c5_amended_halt (tr : Trie) (lskip : Nat → List Nat → Bool)
    (data : List Nat) (fuel i : Nat) (st : ScanState)
    (h : st.skipped = true) :
    writeLoop tr lskip data fuel i st = .ok st := by
  cases fuel with
  | zero => simp [writeLoop, h]
  | succ n => simp [writeLoop, h]

/-- Witness for C5 as amended: from a state with the skipped flag set, the
loop over `{"a":1}` returns immediately without dispatching. -/
theorem c5_amended_halt_witness :
    c3LoopState.skipped = true ∧
    writeLoop trieA lskipAll dataA1 8 6 c3LoopState = .ok c3LoopState :=
  ⟨by decide, c5_amended_halt trieA lskipAll dataA1 8 6 c3LoopState (by decide)⟩

/-- C1 at the failing input: the well-formed document `"hi"` with a listener
registered on the root path.  The claim says the listener receives the
string content `hi` exactly once; the code reads `frame.type` from an
`undefined` frame (the stack is empty and `_postColon` is false in
_emitPrimitiveOrString) and throws a TypeError, invoking no listener. -/
theorem c1_toplevel_scalar_crash :
    write trieRoot lskipNone dataHi initState = .typeError := by
  decide

/-- C2 at the failing input: the top-level scalar document `true` (with a
trailing newline) and a root listener — the code throws a TypeError instead
of emitting the token (first conjunct); for a container document `{}` the
root listener does receive the entire text exactly once at the top-level
closing delimiter (second conjunct). -/
theorem c2_root_listener :
    write trieRoot lskipNone dataTrue initState = .typeError ∧
    write trieRoot lskipNone dataEmptyObj initState =
      .ok { stack := [], postColon := false, lastString := none,
            skipped := false, cursor := [], log := [(0, [123, 125])] } := by
  exact ⟨by decide, by decide⟩

end FastJson
